import Mathlib

/-!
Verification of the dockerns routing engine against its specification.

Go strings are modelled as lists of characters (`GoString`), compiled regular
expressions by their MatchString function (`GoString → Bool`), and the
fallible external calls (regexp compilation, Docker Remote API, etcd, base64
decoding, the OS resolver) as explicit parameters or result values.
-/

/-! ### Definitions -/

/-- Go strings modelled as lists of characters. -/
abbrev GoString := List Char

/-- Converts a Lean string literal into the Go string model. -/
def gs (s : String) : GoString := s.toList

/-- Splits `s` at the first occurrence of `sep` into the parts before and
after it; `none` when `sep` does not occur.  Building block for the model of
Go `strings.SplitN` with `n = 2`. -/
def splitFirst (sep : Char) : GoString → Option (GoString × GoString)
  | [] => none
  | c :: cs =>
    if c = sep then some ([], cs)
    else (splitFirst sep cs).map (fun p => (c :: p.1, p.2))

/-- Model of Go `strings.SplitN(s, sep, 2)` for a one-character separator:
one part when the separator is absent, otherwise the parts before and after
its first occurrence. -/
def goSplitN2 (sep : Char) (s : GoString) : List GoString :=
  match splitFirst sep s with
  | none => [s]
  | some (a, b) => [a, b]

/-- Model of Go `key[strings.LastIndex(key, slash)+1:]`: the segment after
the last slash, or the whole string when no slash occurs. -/
def lastSegment (s : GoString) : GoString :=
  s.foldl (fun acc c => if c = '/' then [] else acc ++ [c]) []

/-- Decimal digit test used by the `strconv.Atoi` model. -/
def isDigitChar (c : Char) : Bool := decide ('0' ≤ c) && decide (c ≤ '9')

/-- Value of a string of decimal digits. -/
def digitsVal (s : GoString) : Nat :=
  s.foldl (fun a c => a * 10 + (c.toNat - '0'.toNat)) 0

/-- Parses a nonempty all-digit string. -/
def atoiDigits (s : GoString) : Option Nat :=
  if s.isEmpty then none
  else if s.all isDigitChar then some (digitsVal s) else none

/-- Model of Go `strconv.Atoi`: an optional sign followed by at least one
decimal digit (machine-size overflow is not modelled; priorities are kept as
unbounded integers). -/
def atoi (s : GoString) : Option Int :=
  match s with
  | '+' :: rest => (atoiDigits rest).map (fun n => (n : Int))
  | '-' :: rest => (atoiDigits rest).map (fun n => -(n : Int))
  | rest => (atoiDigits rest).map (fun n => (n : Int))

/-- accounts.Route: a compiled routing rule.  The `Regexp` field is modelled
by the compiled expression's MatchString function. -/
structure Route where
  name : GoString
  priority : Int
  host : GoString
  regexp : GoString → Bool

/-- accounts.Routes. -/
abbrev Routes := List Route

/-- The search loop inside accounts.Routes.ReplaceHost: the first route whose
pattern matches `hostname` decides the result, otherwise the original `host`
is returned. -/
def Routes.ReplaceHostLoop (host hostname : GoString) (hasPort : Bool) (port : GoString) :
    Routes → GoString
  | [] => host
  | route :: rest =>
    if route.regexp hostname then
      if hasPort then route.host ++ ':' :: port else route.host
    else Routes.ReplaceHostLoop host hostname hasPort port rest

/-- Model of accounts.Routes.ReplaceHost: split the host on the first colon,
record whether a nonempty port suffix is present, and scan the routes in
stored order. -/
def Routes.ReplaceHost (r : Routes) (host : GoString) : GoString :=
  let parts := goSplitN2 ':' host
  let hostname := parts.headD []
  let hasPort := (parts.length == 2) && !(parts.getD 1 []).isEmpty
  Routes.ReplaceHostLoop host hostname hasPort (parts.getD 1 []) r

/-- The name portion of a host: the part before the first colon (the whole
host when there is no colon). -/
def hostNamePart (host : GoString) : GoString := (goSplitN2 ':' host).headD []

/-- The port suffix of a host: the part after the first colon, when present
and nonempty. -/
def hostPortPart (host : GoString) : Option GoString :=
  match goSplitN2 ':' host with
  | [_, p] => if p.isEmpty then none else some p
  | _ => none

/-- Route matcher written after the words of the specification (section 4.1):
return `route.host` recombined with the preserved port for the first route of
the stored order whose pattern matches the name portion, and the original
host when no route matches. -/
def specReplaceHost (r : Routes) (host : GoString) : GoString :=
  match r.find? (fun route => route.regexp (hostNamePart host)) with
  | some route =>
    match hostPortPart host with
    | some p => route.host ++ ':' :: p
    | none => route.host
  | none => host

/-- A route whose pattern matches every hostname and whose target host is the
one-character string a. -/
def routeToA : Route := { name := [], priority := 0, host := gs "a", regexp := fun _ => true }

/-- A route whose pattern matches no hostname. -/
def routeNever : Route := { name := [], priority := 0, host := gs "b", regexp := fun _ => false }

/-- accounts.Container: a Docker container's independent name and IP address. -/
structure Container where
  name : GoString
  ipAddress : GoString

/-- An etcd regex leaf as consumed by accounts.Accounts.Reload: its full key
(whose last segment is `priority.regex-name`) and its value (the regex
source). -/
structure LeafNode where
  key : GoString
  value : GoString

/-- An etcd destination node: its full key (whose last segment is a literal
host or `container-name.container`) and its regex leaves. -/
structure DestNode where
  key : GoString
  nodes : List LeafNode

/-- An etcd account node: its full key (whose last segment is the account
name) and its destination children. -/
structure AccountNode where
  key : GoString
  nodes : List DestNode

/-- The SUFFIX constant of Reload. -/
def containerSuffix : GoString := gs ".container"

/-- Reload's destination-key test: strictly longer than the suffix and ending
in it. -/
def isContainerKey (host : GoString) : Bool :=
  (containerSuffix.length < host.length) &&
    (host.drop (host.length - containerSuffix.length) == containerSuffix)

/-- Reload's destination resolution: a `name.container` key is looked up in
the container inventory (skipped with a diagnostic when the Docker Remote API
is unavailable or the container is absent), any other key is itself the
destination host. -/
def resolveDest (dockerAddr : GoString) (containers : GoString → Option Container)
    (destKey : GoString) : Option GoString :=
  let host := lastSegment destKey
  if isContainerKey host then
    let containerName := host.take (host.length - containerSuffix.length)
    if dockerAddr.isEmpty then none
    else
      match containers containerName with
      | none => none
      | some c => some c.ipAddress
  else some host

/-- Reload's per-leaf step: split the leaf key's last segment on the first
dot, default the priority to 0 when there is no dot, otherwise Atoi the part
before the dot (skipping the leaf on error), compile the regex (skipping the
leaf on error) and assemble the Route.  `compile` models `regexp.Compile`,
returning the compiled expression's MatchString function or `none`. -/
def leafRoute (compile : GoString → Option (GoString → Bool)) (host : GoString)
    (leaf : LeafNode) : Option Route :=
  let s := goSplitN2 '.' (lastSegment leaf.key)
  let priOpt : Option Int := if s.length < 2 then some 0 else atoi (s.headD [])
  match priOpt with
  | none => none
  | some priority =>
    match compile leaf.value with
    | none => none
    | some re => some { name := s.getLastD [], priority := priority, host := host, regexp := re }

/-- The routes contributed by the leaves of one destination whose host has
been resolved. -/
def destRoutes (compile : GoString → Option (GoString → Bool)) (host : GoString)
    (leaves : List LeafNode) : List Route :=
  leaves.filterMap (leafRoute compile host)

/-- The routes of one account in discovery (config-traversal/append) order:
destinations in stored order, leaves in stored order, unresolvable
destinations dropped whole. -/
def accountRoutes (compile : GoString → Option (GoString → Bool)) (dockerAddr : GoString)
    (containers : GoString → Option Container) (dests : List DestNode) : List Route :=
  dests.foldl
    (fun acc d =>
      match resolveDest dockerAddr containers d.key with
      | none => acc
      | some host => acc ++ destRoutes compile host d.nodes)
    []

/-- The comparator `sort.Reverse(Routes).Less` applied to elements: the
first route sorts strictly before the second when its priority is larger. -/
def revLess (x y : Route) : Bool := decide (y.priority < x.priority)

/-- One insertion step of the library insertion sort run by `sort.Sort`: the
new route is placed before the first stored route of strictly smaller
priority (after equal priorities, keeping them in place). -/
def insertRoute (x : Route) : List Route → List Route
  | [] => [x]
  | y :: ys => if revLess x y then x :: y :: ys else y :: insertRoute x ys

/-- The insertion sort that `sort.Sort` runs on short slices, inserting each
element in turn into the sorted prefix. -/
def insertionSortGo (rs : List Route) : List Route :=
  rs.foldl (fun acc x => insertRoute x acc) []

/-- One comparison of the gap-6 ShellSort pass of `sort.Sort`: swap the
elements at `i` and `i - 6` when the one at `i` sorts strictly before. -/
def shellStep (rs : List Route) (i : Nat) : List Route :=
  match rs[i]?, rs[i - 6]? with
  | some xi, some xj => if revLess xi xj then (rs.set i xj).set (i - 6) xi else rs
  | _, _ => rs

/-- The gap-6 ShellSort pass `sort.Sort` runs before its insertion sort on
slices of at most twelve elements (`for i := a + 6; i < b; i++`). -/
def shellPass (rs : List Route) : List Route :=
  (List.range rs.length).foldl (fun acc i => if 6 ≤ i then shellStep acc i else acc) rs

/-- Model of `sort.Sort(sort.Reverse(routes))` as run by Reload: the Go
library's gap-6 ShellSort pass followed by its insertion sort.  This is the
library's exact algorithm for route lists of at most twelve elements (the
quicksort driver for longer slices is replaced by the same
sorted-permutation routine). -/
def goSortRoutes (rs : List Route) : List Route := insertionSortGo (shellPass rs)

/-- accounts.Account. -/
structure Account where
  name : GoString
  routes : Routes

/-- Reload's per-account assembly: the account name is the key's last
segment, the routes are the discovered routes sorted by
`sort.Sort(sort.Reverse(...))`. -/
def buildAccount (compile : GoString → Option (GoString → Bool)) (dockerAddr : GoString)
    (containers : GoString → Option Container) (aNode : AccountNode) : Account :=
  { name := lastSegment aNode.key,
    routes := goSortRoutes (accountRoutes compile dockerAddr containers aNode.nodes) }

/-- Reload's account-map assembly: one Go map insertion per account node in
stored order (later names overwrite earlier ones). -/
def buildAccounts (compile : GoString → Option (GoString → Bool)) (dockerAddr : GoString)
    (containers : GoString → Option Container) (aNodes : List AccountNode) :
    GoString → Option Account :=
  aNodes.foldl
    (fun m aNode =>
      let account := buildAccount compile dockerAddr containers aNode
      fun k => if k = account.name then some account else m k)
    (fun _ => none)

/-- A regexp compiler stub under which every source compiles and the
compiled expression matches everything. -/
def compileAll : GoString → Option (GoString → Bool) := fun _ => some (fun _ => true)

/-- A regex leaf of the claim C4 counterexample tree, with the given
priority digit and regex name in the key's last segment. -/
def c4Leaf (pri nm : String) : LeafNode :=
  { key := gs ("/proxy/m/1.2.3.4/" ++ pri ++ "." ++ nm), value := gs "x" }

/-- The single destination of the claim C4 counterexample tree: seven leaves
discovered in the order a, b (priority 1), c, d, e, f (priority 5),
g (priority 9). -/
def c4Dest : DestNode :=
  { key := gs "/proxy/m/1.2.3.4",
    nodes := [c4Leaf "1" "a", c4Leaf "1" "b", c4Leaf "5" "c", c4Leaf "5" "d",
              c4Leaf "5" "e", c4Leaf "5" "f", c4Leaf "9" "g"] }

/-- The claim C4 counterexample config tree: one account m with one
destination and seven leaves. -/
def c4Node : AccountNode := { key := gs "/proxy/m", nodes := [c4Dest] }

/-- The result of the etcd recursive Get in Reload: the account nodes on
success, an etcd error with its code, or a transport error that is not an
etcd.EtcdError. -/
inductive EtcdGetResult where
  | found (nodes : List AccountNode)
  | etcdError (code : Int)
  | netError

/-- The state of accounts.Accounts relevant to Reload: the published account
map and the configured Docker Remote API address (empty when disabled). -/
structure AccountsState where
  accounts : GoString → Option Account
  dockerAddr : GoString

/-- The external world of one Reload call: the outcome of the container
inventory fetch and of the etcd recursive Get. -/
structure ReloadEnv where
  containersResult : Except GoString (GoString → Option Container)
  etcdResult : EtcdGetResult

/-- Model of accounts.Accounts.Reload over one snapshot of the external
world: a failing container fetch (only consulted when the Docker Remote API
is configured) or a failing etcd read returns the error with the state
untouched; etcd error code 100 (key absent) publishes an empty map and
succeeds; otherwise the rebuilt account map is published. -/
def Reload (compile : GoString → Option (GoString → Bool)) (st : AccountsState)
    (env : ReloadEnv) : AccountsState × Option GoString :=
  match (if st.dockerAddr.isEmpty then Except.ok (fun _ => none) else env.containersResult) with
  | .error e => (st, some e)
  | .ok containers =>
    match env.etcdResult with
    | .etcdError code =>
      if code = 100 then ({ st with accounts := fun _ => none }, none)
      else (st, some (gs "etcd error"))
    | .netError => (st, some (gs "etcd request error"))
    | .found nodes =>
      ({ st with accounts := buildAccounts compile st.dockerAddr containers nodes }, none)

/-- A concrete published state for the Reload witnesses. -/
def st0 : AccountsState := { accounts := fun _ => none, dockerAddr := [] }

/-- A concrete failing environment for the claim C6 witness: the etcd read
fails with a transport error. -/
def envNetErr : ReloadEnv :=
  { containersResult := Except.ok (fun _ => none), etcdResult := EtcdGetResult.netError }

/-- A concrete successful environment for the claim C3 witness, reusing the
seven-leaf account tree. -/
def envFound : ReloadEnv :=
  { containersResult := Except.ok (fun _ => none),
    etcdResult := EtcdGetResult.found [c4Node] }

/-- A regexp compiler stub for claim C5: the one-character source `(` fails
to compile, everything else compiles and matches everything. -/
def compileBad : GoString → Option (GoString → Bool) :=
  fun v => if v = gs "(" then none else some (fun _ => true)

/-- A valid leaf for the claim C5 witness. -/
def c5Good1 : LeafNode := { key := gs "/proxy/m/h/1.ok1", value := gs "x" }

/-- The claim C5 witness leaf whose regex source fails to compile. -/
def c5Bad : LeafNode := { key := gs "/proxy/m/h/2.bad", value := gs "(" }

/-- Another valid leaf for the claim C5 witness. -/
def c5Good2 : LeafNode := { key := gs "/proxy/m/h/3.ok2", value := gs "y" }

/-- The rebuild times produced by the Watch debounce loop on a time-ordered
stream of event times (`case r := <-recvEtcd / <-recvDocker` re-arms the
single timer `t = time.After(time.Second)`, replacing any armed timer;
`case <-t` runs Reload): the timer fires one second after an event exactly
when no further event arrives strictly before that deadline. -/
def fireTimes : List Rat → List Rat
  | [] => []
  | [t] => [t + 1]
  | t :: u :: rest =>
    if u < t + 1 then fireTimes (u :: rest) else (t + 1) :: fireTimes (u :: rest)

/-- One entry of the Docker `GET /containers/json` list. -/
structure ContainerListItem where
  id : GoString
  names : List GoString

/-- The fields read from `GET /containers/<id>/json`; a missing or empty
JSON Name decodes to the empty string. -/
structure ContainerDetail where
  name : GoString
  ipAddress : GoString

/-- The outcome of the getContainers inventory fetch: a container map, a
returned error, or a Go runtime panic. -/
inductive FetchOutcome (α : Type) where
  | ok (val : α)
  | fetchError (msg : GoString)
  | panicked

/-- The loop of accounts.getContainers: query each listed container's
detail, then register the detail Name with its first character sliced off
(Go `container.Name[1:]`, which is a slice-bounds runtime panic when Name is
empty) together with every listed alias.  `details` models the per-id
detail request. -/
def getContainersLoop (details : GoString → Except GoString ContainerDetail) :
    List ContainerListItem → (GoString → Option Container) →
      FetchOutcome (GoString → Option Container)
  | [], m => .ok m
  | item :: rest, m =>
    match details item.id with
    | .error e => .fetchError e
    | .ok detail =>
      match detail.name with
      | [] => .panicked
      | _ :: nameTail =>
        let c : Container := { name := nameTail, ipAddress := detail.ipAddress }
        let m1 : GoString → Option Container := fun k => if k = c.name then some c else m k
        let m2 := item.names.foldl (fun acc nm => fun k => if k = nm then some c else acc k) m1
        getContainersLoop details rest m2

/-- Model of accounts.getContainers: fetch the container list, then visit
each entry. -/
def getContainers (listResult : Except GoString (List ContainerListItem))
    (details : GoString → Except GoString ContainerDetail) :
    FetchOutcome (GoString → Option Container) :=
  match listResult with
  | .error e => .fetchError e
  | .ok items => getContainersLoop details items (fun _ => none)

/-- The claim C8 failing input: one listed container whose detail carries no
Name. -/
def c8Item : ContainerListItem := { id := gs "abc123", names := [gs "/web"] }

/-- The detail table for the claim C8 failing input: the detail JSON has no
Name field, so it decodes to the empty string. -/
def c8Details : GoString → Except GoString ContainerDetail :=
  fun _ => Except.ok { name := [], ipAddress := gs "172.17.0.2" }

/-- An IP value returned by the Go net library, modelled by its textual
form. -/
abbrev NetIP := GoString

/-- The A-question branch of dns.DNS.ServeDNS as written in the code: parse
the rewritten host as a literal IP with `parseIP` (net.ParseIP); when
parsing SUCCEEDS (`if ip != nil`) the host is pushed through `resolve`
(net.ResolveIPAddr, answering SERVFAIL on error), and when parsing fails the
A record is synthesized with the nil IP. -/
def dnsARecordIP (parseIP : GoString → Option NetIP)
    (resolve : GoString → Except GoString NetIP) (h : GoString) :
    Except GoString (Option NetIP) :=
  match parseIP h with
  | some _ =>
    match resolve h with
    | .error e => .error e
    | .ok ip2 => .ok (some ip2)
  | none => .ok none

/-- The A-question behaviour the specification describes: a literal IP is
used directly, a non-literal host is re-resolved via the OS resolver. -/
def specARecordIP (parseIP : GoString → Option NetIP)
    (resolve : GoString → Except GoString NetIP) (h : GoString) :
    Except GoString (Option NetIP) :=
  match parseIP h with
  | some ip => .ok (some ip)
  | none =>
    match resolve h with
    | .error e => .error e
    | .ok ip2 => .ok (some ip2)

/-- A net.ParseIP stub for the claim C9 failing input: only the dotted quad
10.0.0.9 is a literal IP. -/
def c9ParseIP : GoString → Option NetIP :=
  fun h => if h = gs "10.0.0.9" then some (gs "10.0.0.9") else none

/-- An OS resolver stub for claim C9: every name resolves to 10.0.0.9. -/
def c9Resolve : GoString → Except GoString NetIP := fun _ => Except.ok (gs "10.0.0.9")

/-- The request state touched by HTTP.authorizeAndReplaceHost: the
Proxy-Authorization header (`none` when absent) and the remaining headers,
which the function never writes. -/
structure Request where
  proxyAuthorization : Option GoString
  otherHeaders : GoString → List GoString

/-- The Basic-authentication path of HTTP.authorizeAndReplaceHost, run on
the Proxy-Authorization value read before the deletion: validate the header
shape, base64-decode the credentials (`decode` models
base64.StdEncoding.DecodeString), check the password when one is
configured, look the user up and replace the host. -/
def authorizeBasic (decode : GoString → Option GoString) (password : GoString)
    (getAccount : GoString → Option Account) (host : GoString)
    (headerValue : GoString) : Except GoString (GoString × GoString) :=
  let authHeader := goSplitN2 ' ' headerValue
  if authHeader.length ≠ 2 then
    .error (gs "valid Proxy-Authorization header not found")
  else if authHeader.headD [] ≠ gs "Basic" then
    .error (gs "proxy only supports Basic authentication")
  else
    match decode (authHeader.getD 1 []) with
    | none => .error (gs "could not decode Proxy-Authorization header value")
    | some userpassraw =>
      let userpass := goSplitN2 ':' userpassraw
      if userpass.length ≠ 2 then
        .error (gs "Proxy-Authorization header value is invalid format")
      else if password ≠ [] ∧ userpass.getD 1 [] ≠ password then
        .error (gs "password incorrect")
      else
        match getAccount (userpass.headD []) with
        | none => .error (gs "account not found")
        | some a => .ok (userpass.headD [], Routes.ReplaceHost a.routes host)

/-- Model of HTTP.authorizeAndReplaceHost: with a fixed AccountName the
request is left untouched and that account is used; otherwise the
Proxy-Authorization header is read, unconditionally deleted from the
request, and the Basic-authentication path decides the result (Go
Header.Get yields the empty string when the header is absent). -/
def authorizeAndReplaceHost (decode : GoString → Option GoString)
    (accountName password : GoString) (getAccount : GoString → Option Account)
    (host : GoString) (r : Request) :
    Request × Except GoString (GoString × GoString) :=
  if accountName ≠ [] then
    match getAccount accountName with
    | none => (r, .error (gs "account not found"))
    | some a => (r, .ok (accountName, Routes.ReplaceHost a.routes host))
  else
    ({ r with proxyAuthorization := none },
      authorizeBasic decode password getAccount host (r.proxyAuthorization.getD []))

/-- A base64 decoder stub for the claim C10 witness. -/
def c10Decode : GoString → Option GoString := fun _ => none

/-- A concrete request carrying proxy credentials for the claim C10
witness. -/
def c10Req : Request :=
  { proxyAuthorization := some (gs "Basic dXNlcjpwdw=="), otherHeaders := fun _ => [] }

/-! ### Theorems -/

theorem ReplaceHostLoop_eq_find (host hostname : GoString) (hasPort : Bool)
    (port : GoString) (r : Routes) :
    Routes.ReplaceHostLoop host hostname hasPort port r =
      match r.find? (fun route => route.regexp hostname) with
      | some route => if hasPort then route.host ++ ':' :: port else route.host
      | none => host := by
  induction r with
  | nil => simp [Routes.ReplaceHostLoop]
  | cons route rest ih =>
    by_cases h : route.regexp hostname
    · simp [Routes.ReplaceHostLoop, List.find?, h]
    · simp only [Bool.not_eq_true] at h
      simp [Routes.ReplaceHostLoop, List.find?, h, ih]

/-- Claim C1: Routes.ReplaceHost splits the host on the first colon, matches
routes against the name portion only in stored order, and rewrites the first
match to `route.host` plus the verbatim port (just `route.host` when the
input carried no port); this is exactly the specification's route matcher. -/
theorem ReplaceHost_matches_spec (r : Routes) (host : GoString) :
    Routes.ReplaceHost r host = specReplaceHost r host := by
  rw [Routes.ReplaceHost, ReplaceHostLoop_eq_find, specReplaceHost]
  cases hsf : splitFirst ':' host with
  | none =>
    simp [hostNamePart, hostPortPart, goSplitN2, hsf]
  | some ab =>
    obtain ⟨a, b⟩ := ab
    cases hb : b.isEmpty <;>
      simp [hostNamePart, hostPortPart, goSplitN2, hsf, hb]

/-- Claim C2 counterexample: with the single route rewriting everything to
the host a, the input a is returned unchanged even though the route's pattern
matches its name portion, so ReplaceHost(h) = h does not imply that no
pattern matched. -/
theorem ReplaceHost_fixed_point_despite_match :
    ¬ (Routes.ReplaceHost [routeToA] (gs "a") = gs "a" ↔
        ∀ route ∈ ([routeToA] : Routes), route.regexp (hostNamePart (gs "a")) = false) := by
  decide

/-- Claim C2 (amended): when no pattern in the route list matches the name
portion of the host, ReplaceHost returns the host unchanged; the converse
fails, because a matching route can reproduce the input host verbatim. -/
theorem ReplaceHost_unchanged_of_no_match (r : Routes) (host : GoString)
    (h : ∀ route ∈ r, route.regexp (hostNamePart host) = false) :
    Routes.ReplaceHost r host = host := by
  rw [Routes.ReplaceHost, ReplaceHostLoop_eq_find]
  have hfind : r.find? (fun route => route.regexp (hostNamePart host)) = none :=
    List.find?_eq_none.mpr (by intro x hx; simpa using h x hx)
  have : (goSplitN2 ':' host).headD [] = hostNamePart host := rfl
  rw [this, hfind]

/-- Witness for the amended claim C2 at a concrete route list and host. -/
theorem ReplaceHost_unchanged_of_no_match_witness :
    Routes.ReplaceHost [routeNever] (gs "a") = gs "a" :=
  ReplaceHost_unchanged_of_no_match [routeNever] (gs "a") (by decide)

theorem mem_insertRoute {x z : Route} {l : List Route} :
    z ∈ insertRoute x l ↔ z = x ∨ z ∈ l := by
  induction l with
  | nil => simp [insertRoute]
  | cons y ys ih =>
    by_cases h : revLess x y
    · simp [insertRoute, h]
    · simp only [insertRoute, h, if_neg, Bool.false_eq_true, ite_false,
        List.mem_cons, ih]
      tauto

theorem insertRoute_sorted {x : Route} {l : List Route}
    (h : l.Pairwise (fun a b => b.priority ≤ a.priority)) :
    (insertRoute x l).Pairwise (fun a b => b.priority ≤ a.priority) := by
  induction l with
  | nil => simp [insertRoute]
  | cons y ys ih =>
    rcases List.pairwise_cons.mp h with ⟨hy, hys⟩
    by_cases hxy : revLess x y
    · have hlt : y.priority < x.priority := by simpa [revLess] using hxy
      rw [insertRoute, if_pos hxy]
      refine List.pairwise_cons.mpr ⟨?_, h⟩
      intro z hz
      rcases List.mem_cons.mp hz with rfl | hz
      · exact le_of_lt hlt
      · exact le_trans (hy z hz) (le_of_lt hlt)
    · have hle : x.priority ≤ y.priority := by
        simp only [revLess, decide_eq_true_eq] at hxy
        omega
      rw [insertRoute, if_neg hxy]
      refine List.pairwise_cons.mpr ⟨?_, ih hys⟩
      intro z hz
      rcases mem_insertRoute.mp hz with rfl | hz
      · exact hle
      · exact hy z hz

theorem foldl_insertRoute_sorted (rs : List Route) (acc : List Route)
    (h : acc.Pairwise (fun a b => b.priority ≤ a.priority)) :
    (rs.foldl (fun acc x => insertRoute x acc) acc).Pairwise
      (fun a b => b.priority ≤ a.priority) := by
  induction rs generalizing acc with
  | nil => simpa using h
  | cons x rs ih => exact ih _ (insertRoute_sorted h)

theorem insertionSortGo_sorted (rs : List Route) :
    (insertionSortGo rs).Pairwise (fun a b => b.priority ≤ a.priority) :=
  foldl_insertRoute_sorted rs [] (by simp)

theorem goSortRoutes_sorted (rs : List Route) :
    (goSortRoutes rs).Pairwise (fun a b => b.priority ≤ a.priority) :=
  insertionSortGo_sorted (shellPass rs)

theorem insertRoute_perm (x : Route) (l : List Route) :
    (insertRoute x l).Perm (x :: l) := by
  induction l with
  | nil => simp [insertRoute]
  | cons y ys ih =>
    by_cases h : revLess x y
    · rw [insertRoute, if_pos h]
    · rw [insertRoute, if_neg h]
      exact (ih.cons y).trans (List.Perm.swap x y ys)

theorem foldl_insertRoute_perm (rs : List Route) (acc : List Route) :
    (rs.foldl (fun acc x => insertRoute x acc) acc).Perm (rs ++ acc) := by
  induction rs generalizing acc with
  | nil => simp
  | cons x rs ih =>
    refine (ih (insertRoute x acc)).trans ?_
    refine (List.Perm.append_left rs (insertRoute_perm x acc)).trans ?_
    exact List.perm_middle

theorem insertionSortGo_perm (rs : List Route) : (insertionSortGo rs).Perm rs := by
  simpa using foldl_insertRoute_perm rs []

theorem cons_set_perm {a b : Route} (t : List Route) (k : Nat)
    (h : t[k]? = some a) : (a :: t.set k b).Perm (b :: t) := by
  induction t generalizing k with
  | nil => simp at h
  | cons c u ih =>
    cases k with
    | zero =>
      rw [List.getElem?_cons_zero, Option.some.injEq] at h
      subst h
      rw [List.set_cons_zero]
      exact List.Perm.swap b c u
    | succ k =>
      rw [List.getElem?_cons_succ] at h
      rw [List.set_cons_succ]
      exact ((List.Perm.swap c a _).trans ((ih k h).cons c)).trans (List.Perm.swap b c u)

theorem set_set_perm {a b : Route} (l : List Route) (i j : Nat) (hj : j < i)
    (ha : l[i]? = some a) (hb : l[j]? = some b) :
    ((l.set i b).set j a).Perm l := by
  induction l generalizing i j with
  | nil => simp at ha
  | cons c t ih =>
    obtain ⟨i', rfl⟩ : ∃ n, i = n + 1 := ⟨i - 1, by omega⟩
    cases j with
    | zero =>
      rw [List.getElem?_cons_zero, Option.some.injEq] at hb
      rw [List.getElem?_cons_succ] at ha
      subst hb
      rw [List.set_cons_succ, List.set_cons_zero]
      exact cons_set_perm t i' ha
    | succ j' =>
      rw [List.getElem?_cons_succ] at ha hb
      rw [List.set_cons_succ, List.set_cons_succ]
      exact (ih i' j' (by omega) ha hb).cons c

theorem shellStep_perm (rs : List Route) (i : Nat) : (shellStep rs i).Perm rs := by
  cases hxi : rs[i]? with
  | none => simp [shellStep, hxi]
  | some xi =>
    cases hxj : rs[i - 6]? with
    | none => simp [shellStep, hxi, hxj]
    | some xj =>
      by_cases hlt : revLess xi xj
      · rcases Nat.eq_zero_or_pos i with rfl | hpos
        · rw [show (0:Nat) - 6 = 0 from rfl, hxi, Option.some.injEq] at hxj
          subst hxj
          simp [revLess] at hlt
        · have hj : i - 6 < i := Nat.sub_lt hpos (by norm_num)
          simp only [shellStep, hxi, hxj, hlt, if_pos]
          exact set_set_perm rs i (i - 6) hj hxi hxj
      · simp [shellStep, hxi, hxj, hlt]

theorem foldl_shellStep_perm (idxs : List Nat) (acc : List Route) :
    (idxs.foldl (fun acc i => if 6 ≤ i then shellStep acc i else acc) acc).Perm acc := by
  induction idxs generalizing acc with
  | nil => exact List.Perm.refl acc
  | cons i idxs ih =>
    rw [List.foldl_cons]
    by_cases hi : 6 ≤ i
    · rw [if_pos hi]
      exact (ih _).trans (shellStep_perm acc i)
    · rw [if_neg hi]
      exact ih acc

theorem goSortRoutes_perm (rs : List Route) : (goSortRoutes rs).Perm rs :=
  (insertionSortGo_perm (shellPass rs)).trans (foldl_shellStep_perm _ rs)

/-- Claim C4 counterexample: on a concrete config tree of one account with
seven leaves, the routes named a and b share priority 1 and are discovered in
the order a then b, yet the built account stores b before a: the gap-6
ShellSort pass of `sort.Sort` moves the first route past its equal, so ties
do not retain discovery order. -/
theorem Reload_sort_reorders_equal_priorities :
    ((accountRoutes compileAll [] (fun _ => none) [c4Dest]).map
        (fun r => (r.priority, r.name)) =
      [(1, gs "a"), (1, gs "b"), (5, gs "c"), (5, gs "d"),
        (5, gs "e"), (5, gs "f"), (9, gs "g")]) ∧
    ((buildAccounts compileAll [] (fun _ => none) [c4Node] (gs "m")).map
        (fun a => a.routes.map (fun r => (r.priority, r.name))) =
      some [(9, gs "g"), (5, gs "c"), (5, gs "d"), (5, gs "e"),
        (5, gs "f"), (1, gs "b"), (1, gs "a")]) := by
  decide

/-- Claim C4 (amended): the sort applied to each account's routes during a
rebuild orders them by priority descending and permutes the discovered
routes, but it is not stable: routes of equal priority may leave their
discovery order (Go's `sort.Sort` gives no stability guarantee). -/
theorem goSortRoutes_perm_and_sorted (rs : List Route) :
    (goSortRoutes rs).Perm rs ∧
      (goSortRoutes rs).Pairwise (fun a b => b.priority ≤ a.priority) :=
  ⟨goSortRoutes_perm rs, goSortRoutes_sorted rs⟩

theorem buildAccounts_mem (compile : GoString → Option (GoString → Bool))
    (dockerAddr : GoString) (containers : GoString → Option Container) :
    ∀ (aNodes : List AccountNode) (m : GoString → Option Account) (n : GoString) (a : Account),
      (aNodes.foldl (fun m aNode =>
          let account := buildAccount compile dockerAddr containers aNode
          fun k => if k = account.name then some account else m k) m) n = some a →
      (∃ aNode, a = buildAccount compile dockerAddr containers aNode) ∨ m n = some a := by
  intro aNodes
  induction aNodes with
  | nil => intro m n a h; exact Or.inr h
  | cons aNode rest ih =>
    intro m n a h
    rw [List.foldl_cons] at h
    rcases ih _ n a h with h1 | h2
    · exact Or.inl h1
    · dsimp only at h2
      by_cases hn : n = (buildAccount compile dockerAddr containers aNode).name
      · rw [if_pos hn] at h2
        exact Or.inl ⟨aNode, (Option.some.inj h2).symm⟩
      · rw [if_neg hn] at h2
        exact Or.inr h2

theorem buildAccounts_sorted (compile : GoString → Option (GoString → Bool))
    (dockerAddr : GoString) (containers : GoString → Option Container)
    (aNodes : List AccountNode) (n : GoString) (acct : Account)
    (h : buildAccounts compile dockerAddr containers aNodes n = some acct) :
    acct.routes.Pairwise (fun x y => y.priority ≤ x.priority) := by
  rcases buildAccounts_mem compile dockerAddr containers aNodes (fun _ => none) n acct h with
    ⟨aNode, rfl⟩ | h2
  · exact goSortRoutes_sorted _
  · cases h2

/-- Claim C3: every account in the snapshot published by a successful Reload
has its route list sorted by priority descending at the moment it becomes
visible to readers. -/
theorem Reload_snapshot_sorted (compile : GoString → Option (GoString → Bool))
    (st : AccountsState) (env : ReloadEnv) (st2 : AccountsState)
    (n : GoString) (acct : Account)
    (h1 : Reload compile st env = (st2, none))
    (h2 : st2.accounts n = some acct) :
    acct.routes.Pairwise (fun x y => y.priority ≤ x.priority) := by
  rw [Reload] at h1
  split at h1
  · exact absurd (congrArg Prod.snd h1) (by simp)
  · split at h1
    · split at h1
      · injection h1 with ha hb
        rw [← ha] at h2
        exact Option.noConfusion h2
      · exact absurd (congrArg Prod.snd h1) (by simp)
    · exact absurd (congrArg Prod.snd h1) (by simp)
    · rename_i nodes heq
      injection h1 with ha hb
      rw [← ha] at h2
      exact buildAccounts_sorted compile st.dockerAddr _ nodes n acct h2

/-- Witness for claim C3 at a concrete state and environment. -/
theorem Reload_snapshot_sorted_witness :
    (((Reload compileAll st0 envFound).1.accounts (gs "m")).getD
        { name := [], routes := [] }).routes.Pairwise
      (fun x y => y.priority ≤ x.priority) :=
  Reload_snapshot_sorted compileAll st0 envFound _ (gs "m") _ rfl rfl

/-- Claim C6: whenever Reload returns a non-nil error (container inventory
fetch failure, or a config-store read failure other than the key-absent code
100), the published accounts snapshot is left completely unchanged. -/
theorem Reload_error_keeps_snapshot (compile : GoString → Option (GoString → Bool))
    (st : AccountsState) (env : ReloadEnv) (st2 : AccountsState) (e : GoString)
    (h : Reload compile st env = (st2, some e)) : st2 = st := by
  rw [Reload] at h
  split at h
  · injection h with ha hb
    exact ha.symm
  · split at h
    · split at h
      · exact absurd (congrArg Prod.snd h) (by simp)
      · injection h with ha hb
        exact ha.symm
    · injection h with ha hb
      exact ha.symm
    · exact absurd (congrArg Prod.snd h) (by simp)

/-- Witness for claim C6 at a concrete state and failing environment. -/
theorem Reload_error_keeps_snapshot_witness :
    (Reload compileAll st0 envNetErr).1 = st0 :=
  Reload_error_keeps_snapshot compileAll st0 envNetErr
    (Reload compileAll st0 envNetErr).1 (gs "etcd request error") rfl

theorem leafRoute_none_of_invalid (compile : GoString → Option (GoString → Bool))
    (host : GoString) (leaf : LeafNode)
    (h : compile leaf.value = none ∨
      (¬ (goSplitN2 '.' (lastSegment leaf.key)).length < 2 ∧
        atoi ((goSplitN2 '.' (lastSegment leaf.key)).headD []) = none)) :
    leafRoute compile host leaf = none := by
  rcases h with h | ⟨h1, h2⟩
  · simp only [leafRoute]
    split
    · rfl
    · rw [h]
  · simp only [leafRoute, if_neg h1, h2]

theorem destRoutes_length_of_all_some (compile : GoString → Option (GoString → Bool))
    (host : GoString) (ls : List LeafNode)
    (h : ∀ l ∈ ls, (leafRoute compile host l).isSome) :
    (destRoutes compile host ls).length = ls.length := by
  induction ls with
  | nil => rfl
  | cons l ls ih =>
    have hl := h l (List.mem_cons_self ..)
    rcases Option.isSome_iff_exists.mp hl with ⟨r, hr⟩
    rw [destRoutes, List.filterMap_cons, hr, List.length_cons]
    have := ih (fun x hx => h x (List.mem_cons_of_mem _ hx))
    rw [destRoutes] at this
    rw [this]
    rfl

/-- Claim C5: a configuration leaf whose regex fails to compile (or whose
priority string before the first dot does not Atoi) is dropped while all
other leaves of the destination are retained, and the build still succeeds:
with one invalid-regex leaf among k leaves, exactly k - 1 routes are built,
and they are exactly the routes of the remaining leaves. -/
theorem invalid_leaf_dropped (compile : GoString → Option (GoString → Bool))
    (host : GoString) (pre post : List LeafNode) (bad : LeafNode) (k : Nat)
    (hbad : compile bad.value = none ∨
      (¬ (goSplitN2 '.' (lastSegment bad.key)).length < 2 ∧
        atoi ((goSplitN2 '.' (lastSegment bad.key)).headD []) = none))
    (hgood : ∀ l ∈ pre ++ post, (leafRoute compile host l).isSome)
    (hk : (pre ++ bad :: post).length = k) :
    destRoutes compile host (pre ++ bad :: post) = destRoutes compile host (pre ++ post) ∧
      (destRoutes compile host (pre ++ bad :: post)).length = k - 1 := by
  have hdrop : destRoutes compile host (pre ++ bad :: post) =
      destRoutes compile host (pre ++ post) := by
    rw [destRoutes, destRoutes, List.filterMap_append, List.filterMap_append,
      List.filterMap_cons, leafRoute_none_of_invalid compile host bad hbad]
  refine ⟨hdrop, ?_⟩
  rw [hdrop, destRoutes_length_of_all_some compile host _ hgood]
  rw [List.length_append, List.length_cons] at hk
  rw [List.length_append]
  omega

/-- Witness for claim C5 at a concrete destination with three leaves, the
middle one failing to compile. -/
theorem invalid_leaf_dropped_witness :
    destRoutes compileBad (gs "h") ([c5Good1] ++ c5Bad :: [c5Good2]) =
        destRoutes compileBad (gs "h") ([c5Good1] ++ [c5Good2]) ∧
      (destRoutes compileBad (gs "h") ([c5Good1] ++ c5Bad :: [c5Good2])).length = 3 - 1 :=
  invalid_leaf_dropped compileBad (gs "h") [c5Good1] [c5Good2] c5Bad 3
    (Or.inl rfl) (by decide) (by decide)

theorem mem_le_getLast (l : List Rat) (hne : l ≠ []) (hs : l.Chain' (· < ·)) :
    ∀ e ∈ l, e ≤ l.getLast hne := by
  induction l with
  | nil => simp
  | cons a l ih =>
    intro e he
    cases l with
    | nil =>
      rcases List.mem_singleton.mp he with rfl
      simp [List.getLast]
    | cons b l2 =>
      rw [List.getLast_cons (by simp)]
      have hc := List.chain'_cons.mp hs
      rcases List.mem_cons.mp he with rfl | he2
      · exact le_of_lt (lt_of_lt_of_le hc.1
          (ih (by simp) hc.2 b (List.mem_cons_self ..)))
      · exact ih (by simp) hc.2 e he2

theorem fireTimes_burst (t : Rat) (rest : List Rat)
    (hwin : (t :: rest).Chain' (fun a b => a < b ∧ b < a + 1)) :
    fireTimes (t :: rest) = [rest.getLastD t + 1] := by
  induction rest generalizing t with
  | nil => simp [fireTimes]
  | cons u rest ih =>
    have hc := List.chain'_cons.mp hwin
    rw [fireTimes, if_pos hc.1.2, ih u hc.2, List.getLastD_cons]

/-- Claim C7: the Watch debounce loop coalesces event bursts: for a nonempty
time-ordered stream of events each arriving strictly within one second of
the previous one, exactly one rebuild is executed, at one second after the
last event, and every rebuild starts no less than one second after each
event that precedes it. -/
theorem Watch_debounce_coalesces (events : List Rat) (hne : events ≠ [])
    (hwin : events.Chain' (fun a b => a < b ∧ b < a + 1)) :
    fireTimes events = [events.getLast hne + 1] ∧
      ∀ T ∈ fireTimes events, ∀ e ∈ events, e + 1 ≤ T := by
  obtain ⟨t, rest, rfl⟩ : ∃ t rest, events = t :: rest := by
    cases events with
    | nil => exact absurd rfl hne
    | cons t rest => exact ⟨t, rest, rfl⟩
  have h1 : fireTimes (t :: rest) = [(t :: rest).getLast hne + 1] := by
    rw [fireTimes_burst t rest hwin, List.getLast_eq_getLastD]
  refine ⟨h1, ?_⟩
  intro T hT e he
  rw [h1, List.mem_singleton] at hT
  subst hT
  have hle : e ≤ (t :: rest).getLast hne :=
    mem_le_getLast (t :: rest) hne (hwin.imp (fun a b hab => hab.1)) e he
  linarith

/-- Witness for claim C7 at a concrete three-event burst. -/
theorem Watch_debounce_coalesces_witness :
    fireTimes [(0 : Rat), 1/2, 9/10] = [(19 : Rat)/10] ∧
      ∀ T ∈ fireTimes [(0 : Rat), 1/2, 9/10],
        ∀ e ∈ [(0 : Rat), 1/2, 9/10], e + 1 ≤ T := by
  have h := Watch_debounce_coalesces [(0 : Rat), 1/2, 9/10] (by simp)
    (by norm_num [List.chain'_cons, List.chain'_singleton])
  refine ⟨?_, h.2⟩
  rw [h.1]
  simp only [List.getLast_eq_getLastD, List.getLastD_cons, List.getLastD_nil]
  norm_num

/-- Claim C8 (code bug): the inventory fetch is not panic-free: on a
container detail whose JSON Name is empty or missing, getContainers
evaluates Go `container.Name[1:]` on the empty string, a slice-bounds
runtime panic, instead of returning an error or completing normally. -/
theorem getContainers_panics_on_empty_name :
    getContainers (Except.ok [c8Item]) c8Details = FetchOutcome.panicked := rfl

/-- Claim C9 (code bug): the A-question path of ServeDNS re-resolves exactly
when the rewritten host IS a literal IP (`if ip != nil`), the opposite of
the specification: for the non-literal rewritten host web.internal the code
synthesizes an A record carrying the nil IP and never calls the OS
resolver, while the specified behaviour resolves it to its address. -/
theorem ServeDNS_A_record_inverted :
    dnsARecordIP c9ParseIP c9Resolve (gs "web.internal") = Except.ok none ∧
      specARecordIP c9ParseIP c9Resolve (gs "web.internal") =
        Except.ok (some (gs "10.0.0.9")) :=
  ⟨rfl, rfl⟩

/-- Claim C10: with no fixed account name, the forward proxy deletes the
Proxy-Authorization header from the request before it is forwarded,
whatever the outcome of authentication, so the proxied request never
carries the caller's proxy credentials; with a fixed account name the
request is left untouched. -/
theorem proxyAuth_header_deleted (decode : GoString → Option GoString)
    (password : GoString) (getAccount : GoString → Option Account)
    (host : GoString) (r : Request) :
    (authorizeAndReplaceHost decode [] password getAccount host r).1.proxyAuthorization
        = none ∧
      ∀ accountName : GoString, accountName ≠ [] →
        (authorizeAndReplaceHost decode accountName password getAccount host r).1 = r := by
  constructor
  · rfl
  · intro accountName hne
    rw [authorizeAndReplaceHost, if_pos hne]
    cases getAccount accountName <;> rfl

/-- Witness for claim C10 at a concrete request, covering both the
credential deletion and the fixed-account frame condition. -/
theorem proxyAuth_header_deleted_witness :
    (authorizeAndReplaceHost c10Decode [] [] (fun _ => none)
        (gs "example.com") c10Req).1.proxyAuthorization = none ∧
      (authorizeAndReplaceHost c10Decode (gs "m") [] (fun _ => none)
        (gs "example.com") c10Req).1 = c10Req :=
  ⟨(proxyAuth_header_deleted c10Decode [] (fun _ => none) (gs "example.com") c10Req).1,
    (proxyAuth_header_deleted c10Decode [] (fun _ => none) (gs "example.com") c10Req).2
      (gs "m") (by decide)⟩
